import Mathlib

/-!
# WS2812 bit-banged driver for AVR (`ws2812.c`)

The driver is embedded as the sequence of hardware-visible operations each C
function performs (writes to the PORTA set/clear registers, `nop`
instructions, calls of `_delay_us`).  Such a sequence is then given two
readings: its effect on the PORTA registers (`exec`) and its duration
(`duration`, 50 ns per `nop` at 20 MHz, 1000 ns per delayed microsecond).
-/

namespace WS2812

/-! ## Constants and timing macros -/

/-- CPU clock frequency in Hz: `#define F_CPU 20000000UL`. -/
def F_CPU : Nat := 20000000

/-- Index of the data pin on PORTA: `#define LED_PIN 5`. -/
def LED_PIN : Nat := 5

/-- One hardware-visible operation of the driver. -/
inductive Event where
  | DIRSET (mask : Nat)   -- PORTA.DIRSET = mask
  | OUTSET (mask : Nat)   -- PORTA.OUTSET = mask
  | OUTCLR (mask : Nat)   -- PORTA.OUTCLR = mask
  | nop                   -- asm("nop")
  | delay_us (us : Nat)   -- _delay_us(us)
  deriving DecidableEq

/-- Macro `#define NOP1  asm("nop")` -/
def NOP1 : List Event := [Event.nop]

/-- Macro `#define NOP2  NOP1;NOP1` -/
def NOP2 : List Event := NOP1 ++ NOP1

/-- Macro `#define NOP4  NOP2;NOP2` -/
def NOP4 : List Event := NOP2 ++ NOP2

/-- Macro `#define NOP8  NOP4;NOP4` -/
def NOP8 : List Event := NOP4 ++ NOP4

/-- Macro `#define T0H   NOP4;NOP2;NOP1` -/
def T0H : List Event := NOP4 ++ NOP2 ++ NOP1

/-- Macro `#define T1H   NOP8;NOP4;NOP2` -/
def T1H : List Event := NOP8 ++ NOP4 ++ NOP2

/-! ## The driver functions -/

/-- The `if`/`else` statement of the loop body of `ws2812_send_byte`: the top
bit of the working byte selects the branch. -/
def send_byte_branch (byte : Nat) : List Event :=
  if byte &&& (1 <<< 7) ≠ 0 then
    [Event.OUTSET (1 <<< LED_PIN)] ++ T1H ++ [Event.OUTCLR (1 <<< LED_PIN)]
  else
    [Event.OUTSET (1 <<< LED_PIN)] ++ T0H ++ [Event.OUTCLR (1 <<< LED_PIN)]

/-- The operations of one pass through the loop body of `ws2812_send_byte`:
the `if`/`else` statement, then (after the shift of the working byte, which
the caller of this definition performs) `_delay_us(1)`. -/
def send_byte_body (byte : Nat) : List Event :=
  send_byte_branch byte ++ [Event.delay_us 1]

/-- The loop `for (uint8_t i = 0; i < 8; i++) { if ..; byte <<= 1; _delay_us(1); }`
of `ws2812_send_byte`, from loop counter `i` and working byte `byte`; both are
`uint8_t`, so the increment and the shift are reduced modulo 256. -/
def send_byte_loop (i byte : Nat) : List Event :=
  if i < 8 then
    send_byte_body byte ++ send_byte_loop ((i + 1) % 256) ((byte <<< 1) % 256)
  else
    []
termination_by 8 - i
decreasing_by omega

/-- Function `void ws2812_send_byte(uint8_t byte)` -/
def ws2812_send_byte (byte : Nat) : List Event :=
  send_byte_loop 0 byte

/-- Function `void ws2812_send_rgb(uint8_t g, uint8_t r, uint8_t b)` -/
def ws2812_send_rgb (g r b : Nat) : List Event :=
  ws2812_send_byte g ++ ws2812_send_byte r ++ ws2812_send_byte b

/-- Function `void ws2812_update()` -/
def ws2812_update : List Event :=
  [Event.delay_us 60]

/-- Function `void ws2812_init()` -/
def ws2812_init : List Event :=
  [Event.DIRSET (1 <<< LED_PIN), Event.OUTCLR (1 <<< LED_PIN)]

/-! ## PORTA registers -/

/-- The direction and output registers of PORTA, both 8 bits wide. -/
structure PORT where
  DIR : Nat
  OUT : Nat
  deriving DecidableEq

/-- Both registers hold 8-bit values. -/
def PORT.wf (s : PORT) : Prop := s.DIR < 256 ∧ s.OUT < 256

instance (s : PORT) : Decidable s.wf := by
  unfold PORT.wf; exact inferInstance

/-- Modelled from the spec: the PORTA register block is declared in
`avr/io.h`, which is not part of the repository.  Effect of one operation on
PORTA: `DIRSET`/`OUTSET` set the bits of the written mask in the 8-bit
`DIR`/`OUT`, `OUTCLR` clears the bits of the written mask in `OUT`; a `nop` and
a delay leave the port alone. -/
def step (s : PORT) : Event → PORT
  | Event.DIRSET m => { s with DIR := (s.DIR ||| m) % 256 }
  | Event.OUTSET m => { s with OUT := (s.OUT ||| m) % 256 }
  | Event.OUTCLR m => { s with OUT := s.OUT &&& (255 ^^^ (m % 256)) }
  | Event.nop => s
  | Event.delay_us _ => s

/-- Run a sequence of operations from PORTA state `s`. -/
def exec (s : PORT) (es : List Event) : PORT :=
  es.foldl step s

/-- Level of pin `LED_PIN`: bit 5 of the output register. -/
def pinHigh (s : PORT) : Bool := s.OUT.testBit LED_PIN

/-- Pin `LED_PIN` is configured as an output: bit 5 of the direction register. -/
def pinIsOutput (s : PORT) : Bool := s.DIR.testBit LED_PIN

/-! ## Durations -/

/-- Length of one CPU cycle in nanoseconds. -/
def cycle_ns : Nat := 1000000000 / F_CPU

/-- Modelled from the spec: `_delay_us` is declared in `util/delay.h`, which is
not part of the repository.  Duration of one operation in nanoseconds: one
cycle per `nop` (the comment of the timing macros: each NOP is 1 CPU cycle,
50 ns at 20 MHz), 1000 ns per microsecond of `_delay_us`; register writes are
not counted. -/
def Event.duration : Event → Nat
  | Event.nop => cycle_ns
  | Event.delay_us us => 1000 * us
  | _ => 0

/-- Duration of a sequence of operations in nanoseconds. -/
def duration (es : List Event) : Nat :=
  (es.map Event.duration).sum

/-! ## Reading a sequence of operations back -/

/-- One complete bit group: set the pin HIGH, hold for `T1H` (bit 1) or `T0H`
(bit 0), set the pin LOW, wait 1 µs. -/
def pulse (b : Bool) : List Event :=
  [Event.OUTSET (1 <<< LED_PIN)] ++ (if b then T1H else T0H) ++
    [Event.OUTCLR (1 <<< LED_PIN)] ++ [Event.delay_us 1]

/-- The low 8 bits of `v`, most significant first. -/
def msbFirst (v : Nat) : List Bool :=
  (List.range 8).map (fun i => v.testBit (7 - i))

/-- Number of `nop`s between the head of a sequence and the `OUTCLR` that ends
the HIGH phase; `none` when something else comes first. -/
def holdCycles : List Event → Option Nat
  | Event.nop :: es => (holdCycles es).map (· + 1)
  | Event.OUTCLR _ :: _ => some 0
  | _ => none

/-- A HIGH hold as the receiver reads it: a `T1H` hold is a 1, a `T0H` hold is
a 0, anything else is no bit. -/
def classify : Option Nat → Option Bool
  | some n => if n = T1H.length then some true else if n = T0H.length then some false else none
  | none => none

/-- The bit pulses of a sequence of operations, one entry per `OUTSET`. -/
def observedBits : List Event → List (Option Bool)
  | [] => []
  | Event.OUTSET _ :: es => classify (holdCycles es) :: observedBits es
  | _ :: es => observedBits es

/-- The value of a list of bits, most significant first. -/
def byteOfBits (bs : List (Option Bool)) : Nat :=
  bs.foldl (fun acc b => 2 * acc + (if b = some true then 1 else 0)) 0

/-- The bytes of a list of observed bits, 8 bits per byte. -/
def emittedBytes : List (Option Bool) → List Nat
  | b7 :: b6 :: b5 :: b4 :: b3 :: b2 :: b1 :: b0 :: rest =>
      byteOfBits [b7, b6, b5, b4, b3, b2, b1, b0] :: emittedBytes rest
  | _ => []

/-- The pin writes of a sequence of operations: `true` for a set-HIGH
(`OUTSET`), `false` for a set-LOW (`OUTCLR`). -/
def pinWrites : List Event → List Bool
  | [] => []
  | Event.OUTSET _ :: es => true :: pinWrites es
  | Event.OUTCLR _ :: es => false :: pinWrites es
  | _ :: es => pinWrites es

/-- The operations `ws2812_send_byte` is made of: a set or clear of pin
`LED_PIN` alone, a `nop`, or a 1 µs delay. -/
def Event.pinOnly : Event → Bool
  | Event.OUTSET m => m == 1 <<< LED_PIN
  | Event.OUTCLR m => m == 1 <<< LED_PIN
  | Event.nop => true
  | Event.delay_us us => us == 1
  | Event.DIRSET _ => false

/-- Whether a list of pin writes strictly alternates, starting with `first`. -/
def alternates : Bool → List Bool → Bool
  | _, [] => true
  | first, w :: ws => (w == first) && alternates (!first) ws

/-- The operations of `ws2812_init()` followed by those of one
`ws2812_send_rgb` call per entry `(g, r, b)` of `calls`. -/
def session (calls : List (Nat × Nat × Nat)) : List Event :=
  ws2812_init ++ calls.flatMap (fun c => ws2812_send_rgb c.1 c.2.1 c.2.2)

/-- Nominal WS2812 bit period in nanoseconds (the 1.25 µs of the comments in
`ws2812.c`). -/
def BIT_PERIOD_NS : Nat := 1250

/-- Tolerance of the WS2812 bit period in nanoseconds (datasheet: ±600 ns). -/
def PERIOD_TOL_NS : Nat := 600

/-- Minimum LOW time the WS2812 takes as a reset (latch), in nanoseconds (the
50 µs of the comment of `ws2812_update`). -/
def RESET_NS : Nat := 50000

/-! ## Helper lemmas -/

theorem top_bit_test (x : Nat) : (x &&& (1 <<< 7) ≠ 0) ↔ x.testBit 7 = true := by
  have h128 : (1 <<< 7 : Nat) = 2 ^ 7 := by decide
  rw [h128]
  constructor
  · intro h
    by_contra hb
    apply h
    apply Nat.eq_of_testBit_eq
    intro i
    rw [Nat.testBit_and, Nat.testBit_two_pow, Nat.zero_testBit]
    by_cases hi : 7 = i
    · subst hi; simp [hb]
    · simp [hi]
  · intro h h0
    have hz : (x &&& 2 ^ 7).testBit 7 = false := by rw [h0]; exact Nat.zero_testBit 7
    rw [Nat.testBit_and, h, Nat.testBit_two_pow_self] at hz
    exact Bool.noConfusion hz

theorem shift_testBit (x k : Nat) (hk : k < 7) :
    ((x <<< 1) % 256).testBit (k + 1) = x.testBit k := by
  have h256 : (256 : Nat) = 2 ^ 8 := by decide
  rw [h256, Nat.testBit_mod_two_pow, Nat.testBit_shiftLeft]
  have : k + 1 < 8 := by omega
  simp [this]

theorem send_byte_body_eq (byte : Nat) :
    send_byte_body byte = pulse (byte.testBit 7) := by
  unfold send_byte_body send_byte_branch pulse
  by_cases h : byte.testBit 7 = true
  · rw [if_pos ((top_bit_test byte).2 h), h]; simp
  · rw [if_neg (fun hc => h ((top_bit_test byte).1 hc))]
    have : byte.testBit 7 = false := by simpa using h
    rw [this]; simp

theorem send_byte_loop_eq (n : Nat) : ∀ i byte : Nat, i + n = 8 →
    send_byte_loop i byte =
      (List.range n).flatMap (fun j => pulse (byte.testBit (7 - j))) := by
  induction n with
  | zero =>
    intro i byte h
    rw [send_byte_loop, if_neg (by omega)]; rfl
  | succ n ih =>
    intro i byte h
    have hi : i < 8 := by omega
    have hmod : (i + 1) % 256 = i + 1 := by omega
    rw [send_byte_loop, if_pos hi, hmod, ih (i + 1) _ (by omega), send_byte_body_eq,
      List.range_succ_eq_map, List.flatMap_cons, List.flatMap_map]
    congr 1
    apply List.flatMap_congr  
    intro j hj
    have hj : j < n := List.mem_range.1 hj
    have e : 7 - j = (6 - j) + 1 := by omega
    have e2 : 7 - (j + 1) = 6 - j := by omega
    simp only [Function.comp, Nat.succ_eq_add_one]
    rw [e, e2, shift_testBit _ _ (by omega)]

theorem ws2812_send_byte_eq (v : Nat) :
    ws2812_send_byte v = (msbFirst v).flatMap pulse := by
  unfold ws2812_send_byte msbFirst
  rw [send_byte_loop_eq 8 0 v rfl, List.flatMap_map]

theorem msbFirst_eq (v : Nat) :
    msbFirst v = [v.testBit 7, v.testBit 6, v.testBit 5, v.testBit 4,
      v.testBit 3, v.testBit 2, v.testBit 1, v.testBit 0] := rfl

theorem msbFirst_length (v : Nat) : (msbFirst v).length = 8 := rfl

set_option maxRecDepth 100000 in
theorem byteOfBits_msbFirst : ∀ v : Nat, v < 256 →
    byteOfBits ((msbFirst v).map some) = v := by
  decide

theorem observedBits_pulse (b : Bool) (rest : List Event) :
    observedBits (pulse b ++ rest) = some b :: observedBits rest := by
  cases b <;> rfl

theorem observedBits_pulses (bits : List Bool) (rest : List Event) :
    observedBits (bits.flatMap pulse ++ rest) = bits.map some ++ observedBits rest := by
  induction bits with
  | nil => rfl
  | cons b bs ih =>
    rw [List.flatMap_cons, List.append_assoc, observedBits_pulse, ih]; rfl

theorem observedBits_flatMap_pulse (bits : List Bool) :
    observedBits (bits.flatMap pulse) = bits.map some := by
  have h := observedBits_pulses bits []
  simpa [observedBits] using h

theorem pinWrites_pulse (b : Bool) (rest : List Event) :
    pinWrites (pulse b ++ rest) = true :: false :: pinWrites rest := by
  cases b <;> rfl

theorem pinWrites_pulses (bits : List Bool) (rest : List Event) :
    pinWrites (bits.flatMap pulse ++ rest) =
      (List.replicate bits.length [true, false]).flatten ++ pinWrites rest := by
  induction bits with
  | nil => rfl
  | cons b bs ih =>
    rw [List.flatMap_cons, List.append_assoc, pinWrites_pulse, ih]; rfl

theorem pinWrites_flatMap_pulse (bits : List Bool) :
    pinWrites (bits.flatMap pulse) = (List.replicate bits.length [true, false]).flatten := by
  have h := pinWrites_pulses bits []
  simpa [pinWrites] using h

theorem duration_append (a b : List Event) :
    duration (a ++ b) = duration a + duration b := by
  simp [duration]

theorem duration_pulse (b : Bool) :
    duration (pulse b) = if b then 1700 else 1350 := by
  cases b <;> rfl

theorem exec_append (s : PORT) (a b : List Event) :
    exec s (a ++ b) = exec (exec s a) b := by
  simp [exec]

theorem outset_testBit (x j : Nat) :
    ((x ||| (1 <<< LED_PIN)) % 256).testBit j =
      (decide (j < 8) && (x.testBit j || decide (LED_PIN = j))) := by
  have h256 : (256 : Nat) = 2 ^ 8 := by decide
  have h32 : (1 <<< LED_PIN : Nat) = 2 ^ LED_PIN := by decide
  rw [h256, h32, Nat.testBit_mod_two_pow, Nat.testBit_or, Nat.testBit_two_pow]

theorem outclr_testBit (x j : Nat) :
    (x &&& (255 ^^^ ((1 <<< LED_PIN) % 256))).testBit j =
      (x.testBit j && (decide (j < 8) != decide (LED_PIN = j))) := by
  have h255 : (255 : Nat) = 2 ^ 8 - 1 := by decide
  have h32 : ((1 <<< LED_PIN) % 256 : Nat) = 2 ^ LED_PIN := by decide
  rw [h255, h32, Nat.testBit_and, Nat.testBit_xor, Nat.testBit_two_pow_sub_one,
    Nat.testBit_two_pow]

theorem testBit_high (x j : Nat) (hx : x < 256) (hj : 8 ≤ j) : x.testBit j = false := by
  apply Nat.testBit_lt_two_pow
  calc x < 2 ^ 8 := hx
    _ ≤ 2 ^ j := Nat.pow_le_pow_right (by decide) hj

theorem outclr_lt (x m : Nat) : x &&& (255 ^^^ (m % 256)) < 256 := by
  have h : 255 ^^^ (m % 256) < 2 ^ 8 := Nat.xor_lt_two_pow (by decide) (by omega)
  exact lt_of_le_of_lt Nat.and_le_right h

theorem step_wf (s : PORT) (e : Event) (h : s.wf) : (step s e).wf := by
  obtain ⟨hd, ho⟩ := h
  cases e with
  | DIRSET m => exact ⟨Nat.mod_lt _ (by decide), ho⟩
  | OUTSET m => exact ⟨hd, Nat.mod_lt _ (by decide)⟩
  | OUTCLR m => exact ⟨hd, outclr_lt _ _⟩
  | nop => exact ⟨hd, ho⟩
  | delay_us n => exact ⟨hd, ho⟩

theorem exec_wf (es : List Event) : ∀ s : PORT, s.wf → (exec s es).wf := by
  induction es with
  | nil => intro s h; exact h
  | cons e es ih => intro s h; exact ih _ (step_wf s e h)

theorem step_pinOnly_DIR (s : PORT) (e : Event) (he : e.pinOnly = true) :
    (step s e).DIR = s.DIR := by
  cases e with
  | DIRSET m => exact Bool.noConfusion he
  | OUTSET m => rfl
  | OUTCLR m => rfl
  | nop => rfl
  | delay_us n => rfl

theorem step_pinOnly_OUT (s : PORT) (e : Event) (he : e.pinOnly = true) (hs : s.wf)
    (j : Nat) (hj : j ≠ LED_PIN) : (step s e).OUT.testBit j = s.OUT.testBit j := by
  have hne : ¬ LED_PIN = j := fun h => hj h.symm
  cases e with
  | DIRSET m => rfl
  | nop => rfl
  | delay_us n => rfl
  | OUTSET m =>
    have hm : m = 1 <<< LED_PIN := by simpa [Event.pinOnly] using he
    subst hm
    show ((s.OUT ||| (1 <<< LED_PIN)) % 256).testBit j = _
    rw [outset_testBit]
    by_cases h8 : j < 8
    · simp [h8, hne]
    · simp [h8, testBit_high s.OUT j hs.2 (by omega)]
  | OUTCLR m =>
    have hm : m = 1 <<< LED_PIN := by simpa [Event.pinOnly] using he
    subst hm
    show (s.OUT &&& (255 ^^^ ((1 <<< LED_PIN) % 256))).testBit j = _
    rw [outclr_testBit]
    by_cases h8 : j < 8
    · simp [h8, hne]
    · simp [h8, testBit_high s.OUT j hs.2 (by omega)]

theorem exec_pinOnly (es : List Event) : ∀ s : PORT, s.wf →
    (∀ e ∈ es, Event.pinOnly e = true) →
    (exec s es).DIR = s.DIR ∧
      ∀ j : Nat, j ≠ LED_PIN → (exec s es).OUT.testBit j = s.OUT.testBit j := by
  induction es with
  | nil => intro s _ _; exact ⟨rfl, fun _ _ => rfl⟩
  | cons e es ih =>
    intro s hs hall
    have he : e.pinOnly = true := hall e (List.mem_cons_self e es)
    obtain ⟨h1, h2⟩ := ih (step s e) (step_wf s e hs)
      (fun x hx => hall x (List.mem_cons_of_mem e hx))
    refine ⟨?_, ?_⟩
    · show (exec (step s e) es).DIR = s.DIR
      rw [h1, step_pinOnly_DIR s e he]
    · intro j hj
      show (exec (step s e) es).OUT.testBit j = s.OUT.testBit j
      rw [h2 j hj, step_pinOnly_OUT s e he hs j hj]

theorem exec_pinOnly_DIR (es : List Event) : ∀ s : PORT,
    (∀ e ∈ es, Event.pinOnly e = true) → (exec s es).DIR = s.DIR := by
  induction es with
  | nil => intro s _; rfl
  | cons e es ih =>
    intro s hall
    show (exec (step s e) es).DIR = s.DIR
    rw [ih (step s e) (fun x hx => hall x (List.mem_cons_of_mem e hx)),
      step_pinOnly_DIR s e (hall e (List.mem_cons_self e es))]

theorem pulse_pinOnly (b : Bool) : ∀ e ∈ pulse b, Event.pinOnly e = true := by
  cases b <;> decide

theorem pulses_pinOnly (bits : List Bool) :
    ∀ e ∈ bits.flatMap pulse, Event.pinOnly e = true := by
  intro e he
  obtain ⟨b, _, hb⟩ := List.mem_flatMap.1 he
  exact pulse_pinOnly b e hb

theorem send_byte_pinOnly (v : Nat) : ∀ e ∈ ws2812_send_byte v, Event.pinOnly e = true := by
  rw [ws2812_send_byte_eq]; exact pulses_pinOnly _

theorem send_rgb_pinOnly (g r b : Nat) :
    ∀ e ∈ ws2812_send_rgb g r b, Event.pinOnly e = true := by
  intro e he
  simp only [ws2812_send_rgb, List.mem_append] at he
  rcases he with (h | h) | h <;> exact send_byte_pinOnly _ e h

theorem exec_pulse (s : PORT) (b : Bool) :
    exec s (pulse b) =
      step (step s (Event.OUTSET (1 <<< LED_PIN))) (Event.OUTCLR (1 <<< LED_PIN)) := by
  cases b <;> rfl

theorem step_outclr_pinLow (s : PORT) :
    pinHigh (step s (Event.OUTCLR (1 <<< LED_PIN))) = false := by
  show (s.OUT &&& (255 ^^^ ((1 <<< LED_PIN) % 256))).testBit LED_PIN = false
  rw [outclr_testBit]
  have h : decide (LED_PIN < 8) = true := by decide
  simp [h]

theorem exec_pulse_pinLow (s : PORT) (b : Bool) : pinHigh (exec s (pulse b)) = false := by
  rw [exec_pulse]; exact step_outclr_pinLow _

theorem exec_pulses_pinLow (bits : List Bool) : ∀ s : PORT, pinHigh s = false →
    pinHigh (exec s (bits.flatMap pulse)) = false := by
  induction bits with
  | nil => intro s h; exact h
  | cons b bs ih =>
    intro s _
    rw [List.flatMap_cons, exec_append]
    exact ih _ (exec_pulse_pinLow s b)

theorem exec_send_byte_pinLow (s : PORT) (v : Nat) :
    pinHigh (exec s (ws2812_send_byte v)) = false := by
  rw [ws2812_send_byte_eq, msbFirst_eq, List.flatMap_cons, exec_append]
  exact exec_pulses_pinLow _ _ (exec_pulse_pinLow s _)

theorem exec_send_rgb_pinLow (s : PORT) (g r b : Nat) :
    pinHigh (exec s (ws2812_send_rgb g r b)) = false := by
  unfold ws2812_send_rgb
  rw [exec_append]
  exact exec_send_byte_pinLow _ b

theorem exec_init (s : PORT) :
    exec s ws2812_init =
      { DIR := (s.DIR ||| (1 <<< LED_PIN)) % 256,
        OUT := s.OUT &&& (255 ^^^ ((1 <<< LED_PIN) % 256)) } := rfl

theorem exec_init_pinLow (s : PORT) : pinHigh (exec s ws2812_init) = false := by
  rw [exec_init]
  show (s.OUT &&& (255 ^^^ ((1 <<< LED_PIN) % 256))).testBit LED_PIN = false
  rw [outclr_testBit]
  have h : decide (LED_PIN < 8) = true := by decide
  simp [h]

theorem exec_init_pinIsOutput (s : PORT) : pinIsOutput (exec s ws2812_init) = true := by
  rw [exec_init]
  show ((s.DIR ||| (1 <<< LED_PIN)) % 256).testBit LED_PIN = true
  rw [outset_testBit]
  have h : decide (LED_PIN < 8) = true := by decide
  simp [h]

theorem exec_calls (calls : List (Nat × Nat × Nat)) : ∀ s : PORT,
    pinHigh s = false → pinIsOutput s = true →
    pinHigh (exec s (calls.flatMap (fun c => ws2812_send_rgb c.1 c.2.1 c.2.2))) = false ∧
    pinIsOutput (exec s (calls.flatMap (fun c => ws2812_send_rgb c.1 c.2.1 c.2.2))) = true := by
  induction calls with
  | nil => intro s h1 h2; exact ⟨h1, h2⟩
  | cons c cs ih =>
    intro s _ h2
    rw [List.flatMap_cons, exec_append]
    apply ih
    · exact exec_send_rgb_pinLow s _ _ _
    · unfold pinIsOutput
      rw [exec_pinOnly_DIR _ _ (send_rgb_pinOnly _ _ _)]
      exact h2

theorem PORT_eq (a b : PORT) (h1 : a.DIR = b.DIR) (h2 : a.OUT = b.OUT) : a = b := by
  cases a; cases b; cases h1; cases h2; rfl

theorem exec_pinOnly_eq (es : List Event) (s : PORT) (hs : s.wf)
    (hall : ∀ e ∈ es, Event.pinOnly e = true) (hlow : pinHigh (exec s es) = false) :
    exec s es = step s (Event.OUTCLR (1 <<< LED_PIN)) := by
  obtain ⟨hd, ho⟩ := exec_pinOnly es s hs hall
  apply PORT_eq
  · rw [hd]; rfl
  · apply Nat.eq_of_testBit_eq
    intro j
    by_cases hj : j = LED_PIN
    · subst hj
      exact hlow.trans (step_outclr_pinLow s).symm
    · rw [ho j hj, step_pinOnly_OUT s (Event.OUTCLR (1 <<< LED_PIN)) (by decide) hs j hj]

theorem take_pinOnly (es : List Event) (k : Nat)
    (hall : ∀ e ∈ es, Event.pinOnly e = true) :
    ∀ e ∈ es.take k, Event.pinOnly e = true :=
  fun e he => hall e (List.mem_of_mem_take he)

theorem duration_pulses (bits : List Bool) :
    duration (bits.flatMap pulse) = 1350 * bits.length + 350 * bits.count true := by
  induction bits with
  | nil => rfl
  | cons b bs ih =>
    rw [List.flatMap_cons, duration_append, ih, duration_pulse]
    cases b <;> simp [List.count_cons] <;> omega

/-! ## The claims -/

/-- C1: for every 8-bit value `v`, `ws2812_send_byte(v)` is exactly 8 bit
pulses, one per loop index `i = 0..7` also when `v = 0`; the `i`-th one is a
`T1H` pulse when bit `7 - i` of `v` is set and a `T0H` pulse otherwise, so the
bits read back from the pin are the bits of `v`, most significant first, and
spell `v` again. -/
theorem send_byte_msb_first (v : Nat) (hv : v < 256) :
    ws2812_send_byte v = (List.range 8).flatMap (fun i => pulse (v.testBit (7 - i))) ∧
    observedBits (ws2812_send_byte v) =
      (List.range 8).map (fun i => some (v.testBit (7 - i))) ∧
    (observedBits (ws2812_send_byte v)).length = 8 ∧
    byteOfBits (observedBits (ws2812_send_byte v)) = v := by
  have hobs : observedBits (ws2812_send_byte v) = (msbFirst v).map some := by
    rw [ws2812_send_byte_eq, observedBits_flatMap_pulse]
  refine ⟨send_byte_loop_eq 8 0 v rfl, ?_, ?_, ?_⟩
  · rw [hobs]; rfl
  · rw [hobs]; rfl
  · rw [hobs]; exact byteOfBits_msbFirst v hv

/-- Witness of C1 at `v = 0b10110000`: the observed bits are 1,0,1,1,0,0,0,0. -/
theorem send_byte_msb_first_witness :
    176 < 256 ∧
    (ws2812_send_byte 176 = (List.range 8).flatMap (fun i => pulse (Nat.testBit 176 (7 - i))) ∧
     observedBits (ws2812_send_byte 176) =
       (List.range 8).map (fun i => some (Nat.testBit 176 (7 - i))) ∧
     (observedBits (ws2812_send_byte 176)).length = 8 ∧
     byteOfBits (observedBits (ws2812_send_byte 176)) = 176) ∧
    observedBits (ws2812_send_byte 176) =
      [some true, some false, some true, some true, some false, some false, some false,
        some false] :=
  ⟨by decide, send_byte_msb_first 176 (by decide),
    (send_byte_msb_first 176 (by decide)).2.1.trans (by decide)⟩

/-- C2: for every triple of 8-bit values, `ws2812_send_rgb(g, r, b)` is the
operations of `ws2812_send_byte(g)`, then those of `ws2812_send_byte(r)`, then
those of `ws2812_send_byte(b)` and nothing else: 24 bit pulses, which read back
as the bytes `g`, `r`, `b` in this order. -/
theorem send_rgb_grb_order (g r b : Nat) (hg : g < 256) (hr : r < 256) (hb : b < 256) :
    ws2812_send_rgb g r b =
      ws2812_send_byte g ++ ws2812_send_byte r ++ ws2812_send_byte b ∧
    observedBits (ws2812_send_rgb g r b) =
      (msbFirst g ++ msbFirst r ++ msbFirst b).map some ∧
    (observedBits (ws2812_send_rgb g r b)).length = 24 ∧
    emittedBytes (observedBits (ws2812_send_rgb g r b)) = [g, r, b] := by
  have hobs : observedBits (ws2812_send_rgb g r b) =
      (msbFirst g ++ msbFirst r ++ msbFirst b).map some := by
    unfold ws2812_send_rgb
    rw [ws2812_send_byte_eq, ws2812_send_byte_eq, ws2812_send_byte_eq,
      ← List.flatMap_append, ← List.flatMap_append, observedBits_flatMap_pulse]
  refine ⟨rfl, hobs, ?_, ?_⟩
  · rw [hobs]; rfl
  · rw [hobs]
    have eg := byteOfBits_msbFirst g hg
    have er := byteOfBits_msbFirst r hr
    have eb := byteOfBits_msbFirst b hb
    rw [msbFirst_eq] at eg er eb
    rw [msbFirst_eq, msbFirst_eq, msbFirst_eq]
    show [byteOfBits _, byteOfBits _, byteOfBits _] = [g, r, b]
    exact congrArg₂ List.cons eg (congrArg₂ List.cons er (congrArg₂ List.cons eb rfl))

/-- Witness of C2 at green = 20, red = 10, blue = 30. -/
theorem send_rgb_grb_order_witness :
    (20 < 256 ∧ 10 < 256 ∧ 30 < 256) ∧
    (ws2812_send_rgb 20 10 30 =
      ws2812_send_byte 20 ++ ws2812_send_byte 10 ++ ws2812_send_byte 30 ∧
    observedBits (ws2812_send_rgb 20 10 30) =
      (msbFirst 20 ++ msbFirst 10 ++ msbFirst 30).map some ∧
    (observedBits (ws2812_send_rgb 20 10 30)).length = 24 ∧
    emittedBytes (observedBits (ws2812_send_rgb 20 10 30)) = [20, 10, 30]) :=
  ⟨by decide, send_rgb_grb_order 20 10 30 (by decide) (by decide) (by decide)⟩

/-- C3, as stated, fails: a 0 bit lasts 1350 ns and a 1 bit 1700 ns, neither is
the 1250 ns target of 25 cycles, and the byte 0x00 takes 10800 ns while the
byte 0xFF takes 13600 ns. -/
theorem bit_period_not_fixed :
    duration (send_byte_body 0x00) = 1350 ∧
    duration (send_byte_body 0x80) = 1700 ∧
    duration (send_byte_body 0x00) ≠ duration (send_byte_body 0x80) ∧
    duration (send_byte_body 0x00) ≠ BIT_PERIOD_NS ∧
    duration (send_byte_body 0x80) ≠ BIT_PERIOD_NS ∧
    BIT_PERIOD_NS = 25 * cycle_ns ∧
    duration (ws2812_send_byte 0x00) = 10800 ∧
    duration (ws2812_send_byte 0xFF) = 13600 ∧
    duration (ws2812_send_byte 0x00) ≠ 8 * BIT_PERIOD_NS ∧
    duration (ws2812_send_byte 0x00) ≠ duration (ws2812_send_byte 0xFF) := by
  have h0 : duration (ws2812_send_byte 0x00) = 10800 := by
    rw [ws2812_send_byte_eq, duration_pulses]; rfl
  have h1 : duration (ws2812_send_byte 0xFF) = 13600 := by
    rw [ws2812_send_byte_eq, duration_pulses]; rfl
  refine ⟨by decide, by decide, by decide, by decide, by decide, by decide, h0, h1, ?_, ?_⟩
  · rw [h0]; decide
  · rw [h0, h1]; decide

/-- C3, amended: the LOW wait after the HIGH hold is the same 1000 ns for a 0
bit and for a 1 bit, so a bit period is the hold plus 1000 ns: 1350 ns (27
cycles of 50 ns) for a 0 bit and 1700 ns (34 cycles) for a 1 bit; every byte is
8 such bit periods and takes 10800 ns plus 350 ns per set bit among its low 8
bits. -/
theorem bit_period_by_value (v byte : Nat) :
    duration (send_byte_body byte) = duration (send_byte_branch byte) + 1000 ∧
    duration (send_byte_body byte) = (if byte.testBit 7 then 1700 else 1350) ∧
    1350 = 27 * cycle_ns ∧ 1700 = 34 * cycle_ns ∧ cycle_ns = 50 ∧
    ws2812_send_byte v = (msbFirst v).flatMap pulse ∧
    (msbFirst v).length = 8 ∧
    duration (pulse false) = 1350 ∧ duration (pulse true) = 1700 ∧
    duration (ws2812_send_byte v) = 10800 + 350 * (msbFirst v).count true := by
  refine ⟨?_, ?_, by decide, by decide, by decide, ws2812_send_byte_eq v, rfl, rfl, rfl, ?_⟩
  · unfold send_byte_body; rw [duration_append]; rfl
  · rw [send_byte_body_eq, duration_pulse]
  · rw [ws2812_send_byte_eq, duration_pulses, msbFirst_length]

/-- C4: `T0H` is exactly 7 `nop`s and `T1H` exactly 14, that is 350 ns and
700 ns at 50 ns per cycle, so the HIGH hold of a 1 bit is strictly longer than
that of a 0 bit, in the ratio 2:1; in the loop body of `ws2812_send_byte` a set
top bit of the working byte selects the `T1H` hold and a clear one the `T0H`
hold. -/
theorem high_hold_two_to_one (byte : Nat) :
    T0H = List.replicate 7 Event.nop ∧
    T1H = List.replicate 14 Event.nop ∧
    cycle_ns = 50 ∧
    duration T0H = 350 ∧
    duration T1H = 700 ∧
    duration T0H < duration T1H ∧
    duration T1H = 2 * duration T0H ∧
    send_byte_branch byte =
      [Event.OUTSET (1 <<< LED_PIN)] ++ (if byte.testBit 7 then T1H else T0H) ++
        [Event.OUTCLR (1 <<< LED_PIN)] := by
  refine ⟨rfl, rfl, by decide, by decide, by decide, by decide, by decide, ?_⟩
  unfold send_byte_branch
  by_cases h : byte.testBit 7 = true
  · rw [if_pos ((top_bit_test byte).2 h), if_pos h]
  · rw [if_neg (fun hc => h ((top_bit_test byte).1 hc)), if_neg h]

/-- C5: whatever the working byte, so for a 0 bit and for a 1 bit, the period
of one pass of the loop of `ws2812_send_byte` (HIGH hold plus LOW padding) lies
within ±600 ns of the nominal 1250 ns, that is between 650 ns and 1850 ns, and
every byte sent is 8 such periods. -/
theorem bit_period_in_tolerance (v byte : Nat) :
    BIT_PERIOD_NS - PERIOD_TOL_NS = 650 ∧
    BIT_PERIOD_NS + PERIOD_TOL_NS = 1850 ∧
    BIT_PERIOD_NS - PERIOD_TOL_NS ≤ duration (send_byte_body byte) ∧
    duration (send_byte_body byte) ≤ BIT_PERIOD_NS + PERIOD_TOL_NS ∧
    ws2812_send_byte v = (msbFirst v).flatMap pulse ∧
    (msbFirst v).length = 8 ∧
    (BIT_PERIOD_NS - PERIOD_TOL_NS ≤ duration (pulse false) ∧
      duration (pulse false) ≤ BIT_PERIOD_NS + PERIOD_TOL_NS) ∧
    (BIT_PERIOD_NS - PERIOD_TOL_NS ≤ duration (pulse true) ∧
      duration (pulse true) ≤ BIT_PERIOD_NS + PERIOD_TOL_NS) := by
  have hb : duration (send_byte_body byte) = if byte.testBit 7 then 1700 else 1350 := by
    rw [send_byte_body_eq, duration_pulse]
  refine ⟨by decide, by decide, ?_, ?_, ws2812_send_byte_eq v, rfl, by decide, by decide⟩
  · rw [hb]; split <;> decide
  · rw [hb]; split <;> decide

/-- C6: after `ws2812_init()` and any number of `ws2812_send_rgb` calls (none
included, any arguments), the pin is an output and LOW when `ws2812_update()`
starts; `ws2812_update()` writes no pin, leaves PORTA as it is at each of its
steps, and waits 60 µs, which is at least the 50 µs reset threshold. -/
theorem update_holds_line_low (s : PORT) (calls : List (Nat × Nat × Nat)) (k : Nat) :
    pinIsOutput (exec s (session calls)) = true ∧
    pinHigh (exec s (session calls)) = false ∧
    pinWrites ws2812_update = [] ∧
    exec (exec s (session calls)) (ws2812_update.take k) = exec s (session calls) ∧
    pinHigh (exec (exec s (session calls)) (ws2812_update.take k)) = false ∧
    duration ws2812_update = 60 * 1000 ∧
    RESET_NS ≤ duration ws2812_update := by
  have hs : pinHigh (exec s (session calls)) = false ∧
      pinIsOutput (exec s (session calls)) = true := by
    unfold session
    rw [exec_append]
    exact exec_calls calls _ (exec_init_pinLow s) (exec_init_pinIsOutput s)
  have hk : exec (exec s (session calls)) (ws2812_update.take k) = exec s (session calls) := by
    rcases k with _ | _ | k <;> rfl
  refine ⟨hs.2, hs.1, rfl, hk, ?_, by decide, by decide⟩
  rw [hk]; exact hs.1

/-- C7: from every PORTA state with 8-bit registers, `ws2812_init()` leaves bit
`LED_PIN` of the direction register set and bit `LED_PIN` of the output register
clear, and every other bit of both registers as it was. -/
theorem init_effect (s : PORT) (hs : s.wf) :
    (exec s ws2812_init).DIR.testBit LED_PIN = true ∧
    (exec s ws2812_init).OUT.testBit LED_PIN = false ∧
    (∀ j : Nat, j ≠ LED_PIN →
      (exec s ws2812_init).DIR.testBit j = s.DIR.testBit j ∧
      (exec s ws2812_init).OUT.testBit j = s.OUT.testBit j) ∧
    (exec s ws2812_init).wf := by
  refine ⟨exec_init_pinIsOutput s, exec_init_pinLow s, ?_, exec_wf _ s hs⟩
  intro j hj
  have hne : ¬ LED_PIN = j := fun h => hj h.symm
  rw [exec_init]
  constructor
  · show ((s.DIR ||| (1 <<< LED_PIN)) % 256).testBit j = _
    rw [outset_testBit]
    by_cases h8 : j < 8
    · simp [h8, hne]
    · simp [h8, testBit_high s.DIR j hs.1 (by omega)]
  · show (s.OUT &&& (255 ^^^ ((1 <<< LED_PIN) % 256))).testBit j = _
    rw [outclr_testBit]
    by_cases h8 : j < 8
    · simp [h8, hne]
    · simp [h8, testBit_high s.OUT j hs.2 (by omega)]

/-- Witness of C7 at `DIR = 0b10000001`, `OUT = 0b11111111`. -/
theorem init_effect_witness :
    (PORT.mk 129 255).wf ∧
    ((exec (PORT.mk 129 255) ws2812_init).DIR.testBit LED_PIN = true ∧
    (exec (PORT.mk 129 255) ws2812_init).OUT.testBit LED_PIN = false ∧
    (∀ j : Nat, j ≠ LED_PIN →
      (exec (PORT.mk 129 255) ws2812_init).DIR.testBit j = (PORT.mk 129 255).DIR.testBit j ∧
      (exec (PORT.mk 129 255) ws2812_init).OUT.testBit j = (PORT.mk 129 255).OUT.testBit j) ∧
    (exec (PORT.mk 129 255) ws2812_init).wf) ∧
    exec (PORT.mk 129 255) ws2812_init = PORT.mk 161 223 :=
  ⟨by decide, init_effect (PORT.mk 129 255) (by decide), by decide⟩

/-- C8: `ws2812_init()` is idempotent: from every PORTA state, running it twice
gives the state that running it once gives, in which the pin is an output and
LOW. -/
theorem init_idempotent (s : PORT) :
    exec (exec s ws2812_init) ws2812_init = exec s ws2812_init ∧
    exec s (ws2812_init ++ ws2812_init) = exec s ws2812_init ∧
    pinIsOutput (exec s ws2812_init) = true ∧
    pinHigh (exec s ws2812_init) = false := by
  have h : exec (exec s ws2812_init) ws2812_init = exec s ws2812_init := by
    rw [exec_init, exec_init]
    congr 1
    · apply Nat.eq_of_testBit_eq
      intro j
      show ((((s.DIR ||| (1 <<< LED_PIN)) % 256) ||| (1 <<< LED_PIN)) % 256).testBit j = _
      rw [outset_testBit, outset_testBit]
      cases s.DIR.testBit j <;> cases decide (j < 8) <;> cases decide (LED_PIN = j) <;> rfl
    · apply Nat.eq_of_testBit_eq
      intro j
      show ((s.OUT &&& (255 ^^^ ((1 <<< LED_PIN) % 256))) &&&
        (255 ^^^ ((1 <<< LED_PIN) % 256))).testBit j = _
      rw [outclr_testBit, outclr_testBit]
      cases s.OUT.testBit j <;> cases decide (j < 8) <;> cases decide (LED_PIN = j) <;> rfl
  refine ⟨h, ?_, exec_init_pinIsOutput s, exec_init_pinLow s⟩
  rw [exec_append, h]

/-- C9: for every value, `ws2812_send_byte` is the concatenation of 8 complete
groups (set pin HIGH, hold `T0H` or `T1H`, set pin LOW, wait 1 µs); its pin
writes, and those of `ws2812_send_rgb`, are HIGH, LOW repeated 8 (resp. 24)
times: they strictly alternate, start with HIGH and end with LOW. -/
theorem no_partial_pulse (v g r b : Nat) :
    ws2812_send_byte v = (msbFirst v).flatMap (fun bit =>
      [Event.OUTSET (1 <<< LED_PIN)] ++ (if bit then T1H else T0H) ++
        [Event.OUTCLR (1 <<< LED_PIN)] ++ [Event.delay_us 1]) ∧
    (msbFirst v).length = 8 ∧
    pinWrites (ws2812_send_byte v) = (List.replicate 8 [true, false]).flatten ∧
    pinWrites (ws2812_send_rgb g r b) = (List.replicate 24 [true, false]).flatten ∧
    alternates true (pinWrites (ws2812_send_byte v)) = true ∧
    (pinWrites (ws2812_send_byte v)).head? = some true ∧
    (pinWrites (ws2812_send_byte v)).getLast? = some false ∧
    alternates true (pinWrites (ws2812_send_rgb g r b)) = true ∧
    (pinWrites (ws2812_send_rgb g r b)).head? = some true ∧
    (pinWrites (ws2812_send_rgb g r b)).getLast? = some false := by
  have h1 : pinWrites (ws2812_send_byte v) = (List.replicate 8 [true, false]).flatten := by
    rw [ws2812_send_byte_eq, pinWrites_flatMap_pulse, msbFirst_length]
  have h3 : pinWrites (ws2812_send_rgb g r b) = (List.replicate 24 [true, false]).flatten := by
    unfold ws2812_send_rgb
    rw [ws2812_send_byte_eq, ws2812_send_byte_eq, ws2812_send_byte_eq,
      ← List.flatMap_append, ← List.flatMap_append, pinWrites_flatMap_pulse]
    rfl
  refine ⟨ws2812_send_byte_eq v, rfl, h1, h3, ?_, ?_, ?_, ?_, ?_, ?_⟩
  · rw [h1]; rfl
  · rw [h1]; rfl
  · rw [h1]; rfl
  · rw [h3]; rfl
  · rw [h3]; rfl
  · rw [h3]; rfl

/-- C10: from every PORTA state `s` with 8-bit registers, the state after
`ws2812_send_byte(v)`, and after `ws2812_send_rgb(g, r, b)`, is `s` with bit
`LED_PIN` of the output register cleared: the pin is LOW on return, the
direction register and the other output bits are as in `s`, also after any
number `k` of the operations of the call, and every operation of the call is a
set or clear of pin `LED_PIN` alone, a `nop` or a 1 µs delay. -/
theorem send_port_effect (s : PORT) (v g r b k : Nat) (hs : s.wf) :
    (exec s (ws2812_send_byte v) = step s (Event.OUTCLR (1 <<< LED_PIN)) ∧
      (exec s (ws2812_send_byte v)).DIR = s.DIR ∧
      (exec s (ws2812_send_byte v)).OUT.testBit LED_PIN = false ∧
      (∀ j : Nat, j ≠ LED_PIN →
        (exec s (ws2812_send_byte v)).OUT.testBit j = s.OUT.testBit j) ∧
      (exec s ((ws2812_send_byte v).take k)).DIR = s.DIR ∧
      (∀ j : Nat, j ≠ LED_PIN →
        (exec s ((ws2812_send_byte v).take k)).OUT.testBit j = s.OUT.testBit j) ∧
      (∀ e ∈ ws2812_send_byte v, Event.pinOnly e = true)) ∧
    (exec s (ws2812_send_rgb g r b) = step s (Event.OUTCLR (1 <<< LED_PIN)) ∧
      (exec s (ws2812_send_rgb g r b)).DIR = s.DIR ∧
      (exec s (ws2812_send_rgb g r b)).OUT.testBit LED_PIN = false ∧
      (∀ j : Nat, j ≠ LED_PIN →
        (exec s (ws2812_send_rgb g r b)).OUT.testBit j = s.OUT.testBit j) ∧
      (exec s ((ws2812_send_rgb g r b).take k)).DIR = s.DIR ∧
      (∀ j : Nat, j ≠ LED_PIN →
        (exec s ((ws2812_send_rgb g r b).take k)).OUT.testBit j = s.OUT.testBit j) ∧
      (∀ e ∈ ws2812_send_rgb g r b, Event.pinOnly e = true)) := by
  have hb := exec_pinOnly _ s hs (send_byte_pinOnly v)
  have hbk := exec_pinOnly _ s hs (take_pinOnly _ k (send_byte_pinOnly v))
  have hc := exec_pinOnly _ s hs (send_rgb_pinOnly g r b)
  have hck := exec_pinOnly _ s hs (take_pinOnly _ k (send_rgb_pinOnly g r b))
  exact ⟨⟨exec_pinOnly_eq _ s hs (send_byte_pinOnly v) (exec_send_byte_pinLow s v),
      hb.1, exec_send_byte_pinLow s v, hb.2, hbk.1, hbk.2, send_byte_pinOnly v⟩,
    ⟨exec_pinOnly_eq _ s hs (send_rgb_pinOnly g r b) (exec_send_rgb_pinLow s g r b),
      hc.1, exec_send_rgb_pinLow s g r b, hc.2, hck.1, hck.2, send_rgb_pinOnly g r b⟩⟩

/-- Witness of C10 at `DIR = 0b10000001`, `OUT = 0b11111111`, `v = 0xA5`,
`(g, r, b) = (20, 10, 30)`, after `k = 3` operations. -/
theorem send_port_effect_witness :
    (PORT.mk 129 255).wf ∧
    ((exec (PORT.mk 129 255) (ws2812_send_byte 165) =
        step (PORT.mk 129 255) (Event.OUTCLR (1 <<< LED_PIN)) ∧
      (exec (PORT.mk 129 255) (ws2812_send_byte 165)).DIR = (PORT.mk 129 255).DIR ∧
      (exec (PORT.mk 129 255) (ws2812_send_byte 165)).OUT.testBit LED_PIN = false ∧
      (∀ j : Nat, j ≠ LED_PIN →
        (exec (PORT.mk 129 255) (ws2812_send_byte 165)).OUT.testBit j =
          (PORT.mk 129 255).OUT.testBit j) ∧
      (exec (PORT.mk 129 255) ((ws2812_send_byte 165).take 3)).DIR = (PORT.mk 129 255).DIR ∧
      (∀ j : Nat, j ≠ LED_PIN →
        (exec (PORT.mk 129 255) ((ws2812_send_byte 165).take 3)).OUT.testBit j =
          (PORT.mk 129 255).OUT.testBit j) ∧
      (∀ e ∈ ws2812_send_byte 165, Event.pinOnly e = true)) ∧
    (exec (PORT.mk 129 255) (ws2812_send_rgb 20 10 30) =
        step (PORT.mk 129 255) (Event.OUTCLR (1 <<< LED_PIN)) ∧
      (exec (PORT.mk 129 255) (ws2812_send_rgb 20 10 30)).DIR = (PORT.mk 129 255).DIR ∧
      (exec (PORT.mk 129 255) (ws2812_send_rgb 20 10 30)).OUT.testBit LED_PIN = false ∧
      (∀ j : Nat, j ≠ LED_PIN →
        (exec (PORT.mk 129 255) (ws2812_send_rgb 20 10 30)).OUT.testBit j =
          (PORT.mk 129 255).OUT.testBit j) ∧
      (exec (PORT.mk 129 255) ((ws2812_send_rgb 20 10 30).take 3)).DIR =
        (PORT.mk 129 255).DIR ∧
      (∀ j : Nat, j ≠ LED_PIN →
        (exec (PORT.mk 129 255) ((ws2812_send_rgb 20 10 30).take 3)).OUT.testBit j =
          (PORT.mk 129 255).OUT.testBit j) ∧
      (∀ e ∈ ws2812_send_rgb 20 10 30, Event.pinOnly e = true))) ∧
    step (PORT.mk 129 255) (Event.OUTCLR (1 <<< LED_PIN)) = PORT.mk 129 223 :=
  ⟨by decide, send_port_effect (PORT.mk 129 255) 165 20 10 30 3 (by decide), by decide⟩

end WS2812
